import Mathlib

/-!
Shallow embedding of the derive-getters crate (src/lib.rs, src/dissolve.rs):
two derive expansions over the syntax tree of a named struct.  Pure syntax
transformations are modelled as Lean functions over explicit syntax-tree
data; fallible Rust code returning syn::Result is modelled with an explicit
result type that also records the possibility of a process panic during
expansion (proc_macro2 Ident::new panics on an invalid identifier string).
-/

namespace DeriveGetters

/-- A Rust identifier token (proc_macro2 Ident), carried as its text. -/
structure Ident where
  name : String
deriving DecidableEq

/-- A declared Rust type, kept as an opaque syntax fragment, never interpreted. -/
structure RustType where
  raw : String
deriving DecidableEq

/-- Error kinds of src/faultmsg.rs (module body absent from src/; the variant
set is exactly the one used by src/dissolve.rs and listed in the shared
failure policy of the specification). -/
inductive Problem where
  | NotAStruct
  | UnitStruct
  | UnnamedFields
  | UnnamedField
  | InvalidAttribute
  | TokensFollowNewName
deriving DecidableEq

/-- A syn::Error as observable from this crate: either one of the crate's own
Problem messages, or a generic syn parse error raised by a failing
sub-parser inside Rename::parse (expected parenthesized arguments,
expected an equals token, expected a string literal). -/
inductive Err where
  | problem : Problem → Err
  | expectedParens : Err
  | expectedEq : Err
  | expectedLitStr : Err
deriving DecidableEq

/-- Result of a fallible step of macro expansion: Ok, an error returned
through syn::Result, or a process panic (Ident::new on a bad string). -/
inductive MRes (α : Type) where
  | ok : α → MRes α
  | error : Err → MRes α
  | panicked : MRes α
deriving DecidableEq

/-- One token inside an attribute argument list, at the granularity
Rename::parse inspects: an identifier-like token, the equals sign, a string
literal, or anything else. -/
inductive Tok where
  | ident : String → Tok
  | eq : Tok
  | litStr : String → Tok
  | other : String → Tok
deriving DecidableEq

/-- syn::AttrStyle: outer #[...] or inner #![...] style. -/
inductive AttrStyle where
  | Outer
  | Inner
deriving DecidableEq

/-- A syn::Attribute: its style, its path (a single-segment path carried as
text, matching attr.path().is_ident), and its parenthesized argument tokens
(none when the attribute is a bare path with no argument list). -/
structure Attribute where
  style : AttrStyle
  path : String
  args : Option (List Tok)
deriving DecidableEq

/-- A syn::Field inside a FieldsNamed list: optional identifier, declared
type, and the attributes attached to the field. -/
structure SynField where
  ident : Option Ident
  ty : RustType
  attrs : List Attribute
deriving DecidableEq

/-- The data of a struct item: named fields, positional (tuple) fields, or a
unit struct. -/
inductive StructData where
  | named : List SynField → StructData
  | unnamed : List RustType → StructData
  | unit : StructData
deriving DecidableEq

/-- The body of a derive input item: struct, enum or union. -/
inductive ItemData where
  | structData : StructData → ItemData
  | enumData : ItemData
  | unionData : ItemData
deriving DecidableEq

/-- syn::DeriveInput: the annotated item handed to the derive expansion.
Generic parameters and where clause are opaque structural data copied
verbatim into the output, carried here as one opaque fragment. -/
structure DeriveInput where
  ident : Ident
  generics : String
  attrs : List Attribute
  data : ItemData
deriving DecidableEq

/-- Approximation of the identifier validity check of proc_macro2 Ident::new
(ASCII fragment): nonempty, first char a letter or underscore, remaining
chars alphanumeric or underscore.  Ident::new panics when this fails. -/
def validIdentString (s : String) : Bool :=
  match s.toList with
  | [] => false
  | c :: cs => (c.isAlpha || c = '_') && cs.all (fun d => d.isAlphanum || d = '_')

/-- The Rename struct of src/dissolve.rs: the new method name parsed from a
dissolve attribute argument list. -/
structure Rename where
  name : Ident
deriving DecidableEq

/-- Rename parse of src/dissolve.rs lines 59-77.  Peeks the custom keyword
rename (failing with Problem.InvalidAttribute otherwise), then parses an
equals token and a string literal (each failing with a generic syn error),
then requires the input to be exhausted (failing with
Problem.TokensFollowNewName), and finally constructs the new Ident, which
panics when the literal text is not a valid identifier. -/
def Rename.parse (input : List Tok) : MRes Rename :=
  match input with
  | Tok.ident "rename" :: rest =>
    match rest with
    | Tok.eq :: rest2 =>
      match rest2 with
      | Tok.litStr s :: rest3 =>
        if rest3 ≠ [] then
          MRes.error (Err.problem Problem.TokensFollowNewName)
        else if validIdentString s then
          MRes.ok (Rename.mk (Ident.mk s))
        else
          MRes.panicked
      | _ => MRes.error Err.expectedLitStr
    | _ => MRes.error Err.expectedEq
  | _ => MRes.error (Err.problem Problem.InvalidAttribute)

/-- attr.parse_args applied to the Rename sub-parser: fails with a generic
syn error when the attribute has no parenthesized argument list, and runs
Rename.parse on the argument tokens otherwise. -/
def parse_args_rename (attr : Attribute) : MRes Rename :=
  match attr.args with
  | Option.none => MRes.error Err.expectedParens
  | Option.some toks => Rename.parse toks

/-- Loop body of dissolve_rename_from (src/dissolve.rs lines 79-92),
generalized over the current directive accumulator: skips attributes whose
style is not outer, and for each outer attribute whose path is dissolve,
parses its arguments, propagating the first error or panic, and otherwise
overwrites the current directive with the parsed name. -/
def dissolve_rename_loop (current : Option Ident) :
    List Attribute → MRes (Option Ident)
  | [] => MRes.ok current
  | attr :: rest =>
    if attr.style ≠ AttrStyle.Outer then
      dissolve_rename_loop current rest
    else if attr.path = "dissolve" then
      match parse_args_rename attr with
      | MRes.ok r => dissolve_rename_loop (some r.name) rest
      | MRes.error e => MRes.error e
      | MRes.panicked => MRes.panicked
    else
      dissolve_rename_loop current rest

/-- dissolve_rename_from of src/dissolve.rs lines 79-92: scans the struct's
attribute list for dissolve attributes and returns the last successfully
parsed rename directive, if any. -/
def dissolve_rename_from (attributes : List Attribute) : MRes (Option Ident) :=
  dissolve_rename_loop none attributes

/-- The Field struct of src/dissolve.rs: a collected named struct member. -/
structure Field where
  ty : RustType
  name : Ident
deriving DecidableEq

/-- Field from_field of src/dissolve.rs lines 36-45: requires the syn field
to carry an identifier, failing with Problem.UnnamedField otherwise. -/
def Field.from_field (field : SynField) : MRes Field :=
  match field.ident with
  | Option.none => MRes.error (Err.problem Problem.UnnamedField)
  | Option.some n => MRes.ok (Field.mk field.ty n)

/-- Field from_fields_named of src/dissolve.rs lines 47-52: maps from_field
over the named-field list and collects, stopping at the first failure. -/
def Field.from_fields_named : List SynField → MRes (List Field)
  | [] => MRes.ok []
  | f :: rest =>
    match Field.from_field f with
    | MRes.ok fl =>
      match Field.from_fields_named rest with
      | MRes.ok fls => MRes.ok (fl :: fls)
      | MRes.error e => MRes.error e
      | MRes.panicked => MRes.panicked
    | MRes.error e => MRes.error e
    | MRes.panicked => MRes.panicked

/-- Modelled from the spec: the named_struct shape extractor lives in
src/extract.rs, which is absent from src/.  Per the Shape Extractor
contract, a declared item that is an enum or union fails with
Problem.NotAStruct; a struct yields its data. -/
def named_struct (node : DeriveInput) : MRes StructData :=
  match node.data with
  | ItemData.structData s => MRes.ok s
  | ItemData.enumData => MRes.error (Err.problem Problem.NotAStruct)
  | ItemData.unionData => MRes.error (Err.problem Problem.NotAStruct)

/-- Modelled from the spec: the named_fields shape extractor lives in
src/extract.rs, which is absent from src/.  Per the Shape Extractor
contract, a unit struct fails with Problem.UnitStruct, positional fields
fail with Problem.UnnamedFields, and named fields are returned. -/
def named_fields (s : StructData) : MRes (List SynField) :=
  match s with
  | StructData.named fs => MRes.ok fs
  | StructData.unnamed _ => MRes.error (Err.problem Problem.UnnamedFields)
  | StructData.unit => MRes.error (Err.problem Problem.UnitStruct)

/-- The NamedStruct of src/dissolve.rs lines 94-99: the validated input to
the dissolve emitter.  The original DeriveInput reference is kept only for
its generics, carried here directly. -/
structure NamedStruct where
  name : Ident
  generics : String
  fields : List Field
  dissolve_rename : Option Ident
deriving DecidableEq

/-- The tuple return type assembled by emit (syn TypeTuple). -/
structure TypeTuple where
  elems : List RustType
deriving DecidableEq

/-- The single method of the emitted dissolve impl block, as laid out by the
fixed quote template of emit: a pub fn taking self by value, returning the
tuple type, whose body is a tuple of the self field expressions in order. -/
structure DissolveMethod where
  is_pub : Bool
  takes_self : Bool
  name : Ident
  ret : TypeTuple
  body : List Ident
deriving DecidableEq

/-- The emitted impl block: the original generics fragment, the struct name,
and the list of methods the block contains. -/
structure ImplBlock where
  generics : String
  self_ty : Ident
  methods : List DissolveMethod
deriving DecidableEq

/-- NamedStruct emit of src/dissolve.rs lines 102-153.  The return type is
folded from the field types in order, the body tuple is folded from the
self field expressions in order, the method name is the rename directive
when present and dissolve otherwise, and the quote template emits exactly
one pub method consuming self inside one impl block. -/
def NamedStruct.emit (s : NamedStruct) : ImplBlock :=
  let types : List RustType :=
    s.fields.foldl (fun p field => p ++ [field.ty]) []
  let type_tuple : TypeTuple := TypeTuple.mk types
  let fieldExprs : List Ident :=
    s.fields.foldl (fun ts field => ts ++ [field.name]) []
  let dissolveIdent : Ident := Ident.mk "dissolve"
  let fn_name : Ident :=
    match s.dissolve_rename with
    | Option.some n => n
    | Option.none => dissolveIdent
  ImplBlock.mk s.generics s.name
    [DissolveMethod.mk true true fn_name type_tuple fieldExprs]

/-- TryFrom DeriveInput for NamedStruct, src/dissolve.rs lines 156-172:
validates the shape, collects the fields, resolves the rename directive,
propagating the first failure. -/
def NamedStruct.try_from (node : DeriveInput) : MRes NamedStruct :=
  match named_struct node with
  | MRes.error e => MRes.error e
  | MRes.panicked => MRes.panicked
  | MRes.ok struct_data =>
    match named_fields struct_data with
    | MRes.error e => MRes.error e
    | MRes.panicked => MRes.panicked
    | MRes.ok nf =>
      match Field.from_fields_named nf with
      | MRes.error e => MRes.error e
      | MRes.panicked => MRes.panicked
      | MRes.ok fields =>
        match dissolve_rename_from node.attrs with
        | MRes.error e => MRes.error e
        | MRes.panicked => MRes.panicked
        | MRes.ok rename =>
          MRes.ok (NamedStruct.mk node.ident node.generics fields rename)

/-- The token stream a derive entry point hands back to the compiler: a
generated impl fragment, a single compile error diagnostic, or a panic of
the expansion process. -/
inductive Expanded where
  | fragment : ImplBlock → Expanded
  | compileError : Err → Expanded
  | panicked : Expanded
deriving DecidableEq

/-- The dissolve entry point of src/lib.rs lines 183-190: try_from mapped
through emit, with an error unwrapped into its compile error stream. -/
def dissolve (ast : DeriveInput) : Expanded :=
  match NamedStruct.try_from ast with
  | MRes.ok ns => Expanded.fragment ns.emit
  | MRes.error e => Expanded.compileError e
  | MRes.panicked => Expanded.panicked

/-- Number of generated methods present in an expansion result. -/
def Expanded.methodCount : Expanded → Nat
  | Expanded.fragment i => i.methods.length
  | Expanded.compileError _ => 0
  | Expanded.panicked => 0

/-- Number of error diagnostics present in an expansion result. -/
def Expanded.diagCount : Expanded → Nat
  | Expanded.fragment _ => 0
  | Expanded.compileError _ => 1
  | Expanded.panicked => 0

/-- Modelled from the spec: the per-field getter directive of src/getters.rs,
which is absent from src/.  A getter attribute resolves to either skipping
the accessor or renaming it. -/
inductive GetterAction where
  | skip : GetterAction
  | rename : Ident → GetterAction
deriving DecidableEq

/-- Modelled from the spec: the getter attribute argument parser of
src/getters.rs, which is absent from src/.  Per the Attribute Interpreter
contract, inside a getter attribute either the keyword skip or a
rename form is recognized, each with no further tokens allowed (trailing
tokens fail with Problem.TokensFollowNewName); any other argument list
fails with Problem.InvalidAttribute.  Identifier construction for the
rename value mirrors the dissolve path, where an invalid identifier string
panics. -/
def getter_action_parse (input : List Tok) : MRes GetterAction :=
  match input with
  | Tok.ident "skip" :: rest =>
    if rest ≠ [] then
      MRes.error (Err.problem Problem.TokensFollowNewName)
    else
      MRes.ok GetterAction.skip
  | Tok.ident "rename" :: rest =>
    match rest with
    | Tok.eq :: rest2 =>
      match rest2 with
      | Tok.litStr s :: rest3 =>
        if rest3 ≠ [] then
          MRes.error (Err.problem Problem.TokensFollowNewName)
        else if validIdentString s then
          MRes.ok (GetterAction.rename (Ident.mk s))
        else
          MRes.panicked
      | _ => MRes.error Err.expectedLitStr
    | _ => MRes.error Err.expectedEq
  | _ => MRes.error (Err.problem Problem.InvalidAttribute)

/-- Modelled from the spec: attr.parse_args for the getter argument parser
of the absent src/getters.rs, failing with a generic syn error when the
attribute carries no parenthesized argument list. -/
def parse_args_getter (attr : Attribute) : MRes GetterAction :=
  match attr.args with
  | Option.none => MRes.error Err.expectedParens
  | Option.some toks => getter_action_parse toks

/-- Modelled from the spec: the attribute scan of the absent src/getters.rs
over one field's attribute list, generalized over the current directive.
Per the Attribute Interpreter contract, only outer-style attributes whose
path is getter are considered, they are processed in source order, and a
later successfully parsed directive overwrites an earlier one. -/
def getter_directive_loop (current : Option GetterAction) :
    List Attribute → MRes (Option GetterAction)
  | [] => MRes.ok current
  | attr :: rest =>
    if attr.style ≠ AttrStyle.Outer then
      getter_directive_loop current rest
    else if attr.path = "getter" then
      match parse_args_getter attr with
      | MRes.ok a => getter_directive_loop (some a) rest
      | MRes.error e => MRes.error e
      | MRes.panicked => MRes.panicked
    else
      getter_directive_loop current rest

/-- Modelled from the spec: resolves the getter directive of one field of
the absent src/getters.rs from the field's full attribute list. -/
def getter_directive_from (attributes : List Attribute) : MRes (Option GetterAction) :=
  getter_directive_loop none attributes

/-- Modelled from the spec: one collected field of the Getters pipeline of
the absent src/getters.rs, pairing the named member with its resolved
directive. -/
structure GetterField where
  field : Field
  action : Option GetterAction
deriving DecidableEq

/-- Modelled from the spec: one emitted accessor method of the absent
src/getters.rs.  It is public, named by the rename directive or the field
identifier, returns an immutable reference to the field's declared type,
and its body returns a reference to the self field of that name. -/
structure GetterMethod where
  is_pub : Bool
  name : Ident
  ref_ty : RustType
  body_field : Ident
deriving DecidableEq

/-- The emitted getters impl block: the original generics fragment, the
struct name, and the accessor methods the block contains. -/
structure GettersImplBlock where
  generics : String
  self_ty : Ident
  methods : List GetterMethod
deriving DecidableEq

/-- Modelled from the spec: the validated input of the Getters emitter of
the absent src/getters.rs. -/
structure GettersStruct where
  name : Ident
  generics : String
  fields : List GetterField
deriving DecidableEq

/-- Modelled from the spec: field collection for the Getters pipeline of the
absent src/getters.rs: each named-field entry must carry an identifier
(Problem.UnnamedField otherwise) and its directive is resolved from the
field's own attributes, the first failure propagating. -/
def GetterField.collect : List SynField → MRes (List GetterField)
  | [] => MRes.ok []
  | f :: rest =>
    match Field.from_field f with
    | MRes.error e => MRes.error e
    | MRes.panicked => MRes.panicked
    | MRes.ok fl =>
      match getter_directive_from f.attrs with
      | MRes.error e => MRes.error e
      | MRes.panicked => MRes.panicked
      | MRes.ok act =>
        match GetterField.collect rest with
        | MRes.error e => MRes.error e
        | MRes.panicked => MRes.panicked
        | MRes.ok rest2 => MRes.ok (GetterField.mk fl act :: rest2)

/-- Modelled from the spec: TryFrom DeriveInput for the Getters pipeline of
the absent src/getters.rs: shape validation shared with the dissolve
pipeline, then field collection with per-field directives. -/
def GettersStruct.try_from (node : DeriveInput) : MRes GettersStruct :=
  match named_struct node with
  | MRes.error e => MRes.error e
  | MRes.panicked => MRes.panicked
  | MRes.ok struct_data =>
    match named_fields struct_data with
    | MRes.error e => MRes.error e
    | MRes.panicked => MRes.panicked
    | MRes.ok nf =>
      match GetterField.collect nf with
      | MRes.error e => MRes.error e
      | MRes.panicked => MRes.panicked
      | MRes.ok gfs =>
        MRes.ok (GettersStruct.mk node.ident node.generics gfs)

/-- Modelled from the spec: the Getters emitter of the absent src/getters.rs.
For each field not marked skip, in declaration order, it emits one public
method named by the rename directive when present and by the field
identifier otherwise, returning an immutable reference to the field. -/
def GettersStruct.emit (s : GettersStruct) : GettersImplBlock :=
  let methods : List GetterMethod :=
    s.fields.foldl (fun ms gf =>
      match gf.action with
      | Option.some GetterAction.skip => ms
      | Option.some (GetterAction.rename n) =>
        ms ++ [GetterMethod.mk true n gf.field.ty gf.field.name]
      | Option.none =>
        ms ++ [GetterMethod.mk true gf.field.name gf.field.ty gf.field.name]) []
  GettersImplBlock.mk s.generics s.name methods

/-- The token stream the Getters entry point hands back to the compiler. -/
inductive GettersExpanded where
  | fragment : GettersImplBlock → GettersExpanded
  | compileError : Err → GettersExpanded
  | panicked : GettersExpanded
deriving DecidableEq

/-- The getters entry point of src/lib.rs lines 171-178: try_from mapped
through emit, with an error unwrapped into its compile error stream.  The
pipeline it invokes lives in the absent src/getters.rs and is modelled
from the spec above. -/
def getters (ast : DeriveInput) : GettersExpanded :=
  match GettersStruct.try_from ast with
  | MRes.ok ns => GettersExpanded.fragment ns.emit
  | MRes.error e => GettersExpanded.compileError e
  | MRes.panicked => GettersExpanded.panicked

/-- The attributes of a list that the dissolve scan acts on: outer style
with path dissolve, in source order. -/
def qualifyingDissolve (attrs : List Attribute) : List Attribute :=
  attrs.filter (fun a => a.style == AttrStyle.Outer && a.path == "dissolve")

/-- The rename directive an attribute contributes when its arguments parse
successfully. -/
def parsedRenameName (a : Attribute) : Option Ident :=
  match parse_args_rename a with
  | MRes.ok r => some r.name
  | MRes.error _ => none
  | MRes.panicked => none

/-- Sample outer dissolve attribute renaming to a. -/
def attrRenameA : Attribute :=
  Attribute.mk AttrStyle.Outer "dissolve"
    (some [Tok.ident "rename", Tok.eq, Tok.litStr "a"])

/-- Sample outer dissolve attribute renaming to b. -/
def attrRenameB : Attribute :=
  Attribute.mk AttrStyle.Outer "dissolve"
    (some [Tok.ident "rename", Tok.eq, Tok.litStr "b"])

/-- Sample malformed outer dissolve attribute (skip is not a dissolve
form). -/
def attrBadSkip : Attribute :=
  Attribute.mk AttrStyle.Outer "dissolve" (some [Tok.ident "skip"])

/-- Sample inner-style dissolve attribute. -/
def attrInnerRename : Attribute :=
  Attribute.mk AttrStyle.Inner "dissolve"
    (some [Tok.ident "rename", Tok.eq, Tok.litStr "c"])

/-- Sample enum derive input. -/
def enumInput : DeriveInput :=
  DeriveInput.mk (Ident.mk "E") "" [] ItemData.enumData

/-- Sample named fields of the Stuff struct of the crate documentation. -/
def stuffFields : List SynField :=
  [SynField.mk (some (Ident.mk "name")) (RustType.mk "String") [],
   SynField.mk (some (Ident.mk "price")) (RustType.mk "f64") [],
   SynField.mk (some (Ident.mk "count")) (RustType.mk "usize") []]

/-- Sample derive input for the Stuff struct, no attributes. -/
def stuffInput : DeriveInput :=
  DeriveInput.mk (Ident.mk "Stuff") "" []
    (ItemData.structData (StructData.named stuffFields))

/-- Sample derive input for the Number struct of the crate documentation. -/
def numberInput : DeriveInput :=
  DeriveInput.mk (Ident.mk "Number") "" []
    (ItemData.structData (StructData.named
      [SynField.mk (some (Ident.mk "num")) (RustType.mk "u64") []]))

/-! Helper lemmas shared by the claim theorems. -/

theorem qualifyingDissolve_cons_keep (attr : Attribute) (rest : List Attribute)
    (hst : attr.style = AttrStyle.Outer) (hp : attr.path = "dissolve") :
    qualifyingDissolve (attr :: rest) = attr :: qualifyingDissolve rest := by
  simp [qualifyingDissolve, List.filter_cons, hst, hp]

theorem qualifyingDissolve_cons_inner (attr : Attribute) (rest : List Attribute)
    (hst : attr.style ≠ AttrStyle.Outer) :
    qualifyingDissolve (attr :: rest) = qualifyingDissolve rest := by
  simp [qualifyingDissolve, List.filter_cons, hst]

theorem qualifyingDissolve_cons_other (attr : Attribute) (rest : List Attribute)
    (hp : attr.path ≠ "dissolve") :
    qualifyingDissolve (attr :: rest) = qualifyingDissolve rest := by
  simp [qualifyingDissolve, List.filter_cons, hp]

theorem dissolve_rename_loop_ok :
    ∀ (attrs : List Attribute) (current : Option Ident),
    (∀ a ∈ qualifyingDissolve attrs, ∃ r, parse_args_rename a = MRes.ok r) →
    dissolve_rename_loop current attrs =
      MRes.ok (((qualifyingDissolve attrs).filterMap parsedRenameName).foldl
        (fun _ n => some n) current)
  | [], current, _ => rfl
  | attr :: rest, current, h => by
    by_cases hst : attr.style = AttrStyle.Outer
    · by_cases hp : attr.path = "dissolve"
      · have hq := qualifyingDissolve_cons_keep attr rest hst hp
        obtain ⟨r, hr⟩ := h attr (by rw [hq]; exact List.mem_cons_self attr _)
        have hrest : ∀ a ∈ qualifyingDissolve rest, ∃ r, parse_args_rename a = MRes.ok r :=
          fun a ha => h a (by rw [hq]; exact List.mem_cons_of_mem _ ha)
        have hpn : parsedRenameName attr = some r.name := by
          simp [parsedRenameName, hr]
        calc dissolve_rename_loop current (attr :: rest)
            = dissolve_rename_loop (some r.name) rest := by
              simp [dissolve_rename_loop, hst, hp, hr]
          _ = MRes.ok (((qualifyingDissolve rest).filterMap parsedRenameName).foldl
                (fun _ n => some n) (some r.name)) :=
              dissolve_rename_loop_ok rest (some r.name) hrest
          _ = _ := by rw [hq]; simp [List.filterMap_cons, hpn]
      · have hq := qualifyingDissolve_cons_other attr rest hp
        have hrest : ∀ a ∈ qualifyingDissolve rest, ∃ r, parse_args_rename a = MRes.ok r :=
          fun a ha => h a (by rw [hq]; exact ha)
        rw [hq]
        calc dissolve_rename_loop current (attr :: rest)
            = dissolve_rename_loop current rest := by
              simp [dissolve_rename_loop, hst, hp]
          _ = _ := dissolve_rename_loop_ok rest current hrest
    · have hq := qualifyingDissolve_cons_inner attr rest hst
      have hrest : ∀ a ∈ qualifyingDissolve rest, ∃ r, parse_args_rename a = MRes.ok r :=
        fun a ha => h a (by rw [hq]; exact ha)
      rw [hq]
      calc dissolve_rename_loop current (attr :: rest)
          = dissolve_rename_loop current rest := by
            simp [dissolve_rename_loop, hst]
        _ = _ := dissolve_rename_loop_ok rest current hrest

theorem foldl_overwrite :
    ∀ (L : List Ident) (c : Option Ident),
    L.foldl (fun _ n => some n) c = Option.or L.getLast? c
  | [], _ => rfl
  | [a], c => by simp [Option.or]
  | a :: b :: L, c => by
    rw [List.foldl_cons, List.getLast?_cons_cons]
    rw [foldl_overwrite (b :: L) (some a)]
    cases hL : (b :: L).getLast? with
    | none => exact absurd (List.getLast?_eq_none_iff.mp hL) (by simp)
    | some x => simp [Option.or]

theorem dissolve_rename_loop_all_inner :
    ∀ (l : List Attribute) (current : Option Ident),
    (∀ a ∈ l, a.style = AttrStyle.Inner) →
    dissolve_rename_loop current l = MRes.ok current
  | [], _, _ => rfl
  | attr :: rest, current, h => by
    have hst : attr.style ≠ AttrStyle.Outer := by
      rw [h attr (by simp)]; simp
    simp [dissolve_rename_loop, hst,
      dissolve_rename_loop_all_inner rest current (fun a ha => h a (by simp [ha]))]

theorem dissolve_rename_loop_filter_outer :
    ∀ (attrs : List Attribute) (current : Option Ident),
    dissolve_rename_loop current attrs =
      dissolve_rename_loop current
        (attrs.filter (fun a => a.style == AttrStyle.Outer))
  | [], _ => rfl
  | attr :: rest, current => by
    by_cases hst : attr.style = AttrStyle.Outer
    · rw [List.filter_cons]
      simp only [hst, beq_self_eq_true, if_true]
      by_cases hp : attr.path = "dissolve"
      · cases hpr : parse_args_rename attr with
        | ok r =>
          simp [dissolve_rename_loop, hst, hp, hpr,
            dissolve_rename_loop_filter_outer rest (some r.name)]
        | error e => simp [dissolve_rename_loop, hst, hp, hpr]
        | panicked => simp [dissolve_rename_loop, hst, hp, hpr]
      · simp [dissolve_rename_loop, hst, hp,
          dissolve_rename_loop_filter_outer rest current]
    · rw [List.filter_cons]
      have hb : (attr.style == AttrStyle.Outer) = false := by
        simp [hst]
      simp only [hb, if_false, Bool.false_eq_true]
      simp [dissolve_rename_loop, hst,
        dissolve_rename_loop_filter_outer rest current]

theorem dissolve_rename_loop_error :
    ∀ (pre : List Attribute) (current : Option Ident),
    (∀ a ∈ qualifyingDissolve pre, ∃ r, parse_args_rename a = MRes.ok r) →
    ∀ (bad : Attribute) (post : List Attribute) (e : Err),
    bad.style = AttrStyle.Outer → bad.path = "dissolve" →
    parse_args_rename bad = MRes.error e →
    dissolve_rename_loop current (pre ++ bad :: post) = MRes.error e
  | [], current, _, bad, post, e, hstyle, hpath, hbad => by
    simp [dissolve_rename_loop, hstyle, hpath, hbad]
  | attr :: pre, current, h, bad, post, e, hstyle, hpath, hbad => by
    by_cases hst : attr.style = AttrStyle.Outer
    · by_cases hp : attr.path = "dissolve"
      · have hq := qualifyingDissolve_cons_keep attr pre hst hp
        obtain ⟨r, hr⟩ := h attr (by rw [hq]; exact List.mem_cons_self attr _)
        have hrest : ∀ a ∈ qualifyingDissolve pre, ∃ r, parse_args_rename a = MRes.ok r :=
          fun a ha => h a (by rw [hq]; exact List.mem_cons_of_mem _ ha)
        simp only [List.cons_append]
        simp [dissolve_rename_loop, hst, hp, hr,
          dissolve_rename_loop_error pre (some r.name) hrest bad post e hstyle hpath hbad]
      · have hq := qualifyingDissolve_cons_other attr pre hp
        have hrest : ∀ a ∈ qualifyingDissolve pre, ∃ r, parse_args_rename a = MRes.ok r :=
          fun a ha => h a (by rw [hq]; exact ha)
        simp only [List.cons_append]
        simp [dissolve_rename_loop, hst, hp,
          dissolve_rename_loop_error pre current hrest bad post e hstyle hpath hbad]
    · have hq := qualifyingDissolve_cons_inner attr pre hst
      have hrest : ∀ a ∈ qualifyingDissolve pre, ∃ r, parse_args_rename a = MRes.ok r :=
        fun a ha => h a (by rw [hq]; exact ha)
      simp only [List.cons_append]
      simp [dissolve_rename_loop, hst,
        dissolve_rename_loop_error pre current hrest bad post e hstyle hpath hbad]

theorem foldl_push_eq_map {α β : Type} (f : α → β) :
    ∀ (l : List α) (acc : List β),
    l.foldl (fun p a => p ++ [f a]) acc = acc ++ l.map f
  | [], acc => by simp
  | a :: l, acc => by
    simp only [List.foldl, List.map]
    rw [foldl_push_eq_map f l (acc ++ [f a])]
    simp

theorem from_fields_named_of_isSome :
    ∀ fs : List SynField, (∀ f ∈ fs, (SynField.ident f).isSome) →
    Field.from_fields_named fs =
      MRes.ok (fs.map (fun f => Field.mk f.ty (f.ident.getD (Ident.mk ""))))
  | [], _ => rfl
  | f :: fs, h => by
    have hf := h f (by simp)
    match hid : f.ident with
    | Option.none => rw [hid] at hf; simp at hf
    | Option.some n =>
      have hrest := from_fields_named_of_isSome fs (fun g hg => h g (by simp [hg]))
      simp [Field.from_fields_named, Field.from_field, hid, hrest]

theorem from_fields_named_of_missing :
    ∀ fs : List SynField, (∃ f ∈ fs, f.ident = none) →
    Field.from_fields_named fs = MRes.error (Err.problem Problem.UnnamedField)
  | f :: fs, h => by
    match hid : f.ident with
    | Option.none => simp [Field.from_fields_named, Field.from_field, hid]
    | Option.some n =>
      obtain ⟨g, hg, hgn⟩ := h
      rcases List.mem_cons.mp hg with hgf | hgfs
      · rw [hgf, hid] at hgn; exact absurd hgn (by simp)
      · have hrest := from_fields_named_of_missing fs ⟨g, hgfs, hgn⟩
        simp [Field.from_fields_named, Field.from_field, hid, hrest]

theorem rename_parse_headed_ne_invalid (rest : List Tok) :
    Rename.parse (Tok.ident "rename" :: rest) ≠
      MRes.error (Err.problem Problem.InvalidAttribute) := by
  match rest with
  | [] => simp [Rename.parse]
  | Tok.eq :: rest2 =>
    match rest2 with
    | [] => simp [Rename.parse]
    | Tok.litStr s :: rest3 =>
      by_cases h3 : rest3 = []
      · subst h3
        by_cases hv : validIdentString s
        · simp [Rename.parse, hv]
        · simp [Rename.parse, hv]
      · simp [Rename.parse, h3]
    | Tok.ident s :: r => simp [Rename.parse]
    | Tok.eq :: r => simp [Rename.parse]
    | Tok.other s :: r => simp [Rename.parse]
  | Tok.ident s :: r => simp [Rename.parse]
  | Tok.litStr s :: r => simp [Rename.parse]
  | Tok.other s :: r => simp [Rename.parse]

theorem rename_parse_not_headed (toks : List Tok)
    (h : ¬ ∃ rest, toks = Tok.ident "rename" :: rest) :
    Rename.parse toks = MRes.error (Err.problem Problem.InvalidAttribute) := by
  rw [Rename.parse.eq_def]
  split
  · rename_i rest
    exact absurd ⟨rest, rfl⟩ h
  · rfl

/-! Theorems for the frozen claims. -/

/-- Claim C7: the field collector, given a named-field list, returns the
fields as an ordered sequence preserving declaration order, and fails with
UnnamedField if and only if some entry in the list lacks an identifier. -/
theorem field_collector_order_and_unnamed_iff (fs : List SynField) :
    ((∀ f ∈ fs, (SynField.ident f).isSome) →
      Field.from_fields_named fs =
        MRes.ok (fs.map (fun f => Field.mk f.ty (f.ident.getD (Ident.mk ""))))) ∧
    (Field.from_fields_named fs = MRes.error (Err.problem Problem.UnnamedField) ↔
      ∃ f ∈ fs, f.ident = none) := by
  refine ⟨from_fields_named_of_isSome fs, ?_, from_fields_named_of_missing fs⟩
  intro h
  by_contra hn
  push_neg at hn
  have hsome : ∀ f ∈ fs, (SynField.ident f).isSome := by
    intro f hf
    exact Option.isSome_iff_ne_none.mpr (hn f hf)
  rw [from_fields_named_of_isSome fs hsome] at h
  exact absurd h (by simp)

/-- Claim C7 witness: a singleton named-field list collects to the one field
in order, via the general theorem at a concrete input. -/
theorem field_collector_order_and_unnamed_iff_witness :
    Field.from_fields_named
        [SynField.mk (some (Ident.mk "num")) (RustType.mk "u64") []] =
      MRes.ok [Field.mk (RustType.mk "u64") (Ident.mk "num")] := by
  have h := (field_collector_order_and_unnamed_iff
      [SynField.mk (some (Ident.mk "num")) (RustType.mk "u64") []]).1
    (by intro f hf; simp at hf; subst hf; rfl)
  simpa using h

/-- Claim C5 counterexample: the argument list consisting of the bare
keyword rename is not of the form rename equals literal, yet Rename.parse
fails on it with the generic syn error for a missing equals token, not with
Problem.InvalidAttribute. -/
theorem rename_parse_invalid_attribute_cex :
    Rename.parse [Tok.ident "rename"] = MRes.error Err.expectedEq ∧
    (MRes.error Err.expectedEq : MRes Rename) ≠
      MRes.error (Err.problem Problem.InvalidAttribute) := by
  exact ⟨rfl, by simp⟩

/-- Claim C5 (amended): Rename.parse fails with InvalidAttribute exactly
when the argument list does not begin with the rename keyword; trailing
tokens after a recognized rename equals literal form fail with
TokensFollowNewName; and an argument list that is exactly the recognized
form with a valid identifier literal succeeds with the new name. -/
theorem rename_parse_error_taxonomy (toks : List Tok) :
    ((Rename.parse toks = MRes.error (Err.problem Problem.InvalidAttribute)) ↔
      ¬ ∃ rest, toks = Tok.ident "rename" :: rest) ∧
    (∀ s rest, rest ≠ [] →
      Rename.parse (Tok.ident "rename" :: Tok.eq :: Tok.litStr s :: rest) =
        MRes.error (Err.problem Problem.TokensFollowNewName)) ∧
    (∀ s, validIdentString s = true →
      Rename.parse [Tok.ident "rename", Tok.eq, Tok.litStr s] =
        MRes.ok (Rename.mk (Ident.mk s))) := by
  refine ⟨⟨?_, rename_parse_not_headed toks⟩, ?_, ?_⟩
  · intro h hex
    obtain ⟨rest, hrest⟩ := hex
    rw [hrest] at h
    exact rename_parse_headed_ne_invalid rest h
  · intro s rest hrest
    simp [Rename.parse, hrest]
  · intro s hs
    simp [Rename.parse, hs]

/-- Claim C5 (amended) witness: the three parts of the taxonomy evaluated at
concrete argument lists through the general theorem. -/
theorem rename_parse_error_taxonomy_witness :
    Rename.parse [Tok.ident "skip"] =
        MRes.error (Err.problem Problem.InvalidAttribute) ∧
    Rename.parse
        [Tok.ident "rename", Tok.eq, Tok.litStr "shatter", Tok.other "x"] =
      MRes.error (Err.problem Problem.TokensFollowNewName) ∧
    Rename.parse [Tok.ident "rename", Tok.eq, Tok.litStr "shatter"] =
      MRes.ok (Rename.mk (Ident.mk "shatter")) := by
  refine ⟨?_, ?_, ?_⟩
  · exact (rename_parse_error_taxonomy [Tok.ident "skip"]).1.mpr
      (by intro hex; obtain ⟨rest, hrest⟩ := hex; simp at hrest)
  · exact (rename_parse_error_taxonomy []).2.1 "shatter" [Tok.other "x"] (by simp)
  · exact (rename_parse_error_taxonomy []).2.2 "shatter" rfl

/-- Claim C9: a syntactically valid rename form whose string literal is not
a valid identifier makes Rename.parse panic while constructing the new
identifier, instead of returning an InvalidAttribute error result. -/
theorem rename_parse_panics_on_invalid_ident (s : String)
    (h : validIdentString s = false) :
    Rename.parse [Tok.ident "rename", Tok.eq, Tok.litStr s] = MRes.panicked ∧
    Rename.parse [Tok.ident "rename", Tok.eq, Tok.litStr s] ≠
      MRes.error (Err.problem Problem.InvalidAttribute) := by
  constructor
  · simp [Rename.parse, h]
  · simp [Rename.parse, h]

/-- Claim C9 witness: the empty string is not a valid identifier and makes
Rename.parse panic, via the general theorem. -/
theorem rename_parse_panics_on_invalid_ident_witness :
    validIdentString "" = false ∧
    Rename.parse [Tok.ident "rename", Tok.eq, Tok.litStr ""] = MRes.panicked :=
  ⟨rfl, (rename_parse_panics_on_invalid_ident "" rfl).1⟩

/-- Claim C4: when every qualifying dissolve attribute of the list parses
successfully, the scan processes them in source order and returns the last
directive, with no accumulation and no conflict error. -/
theorem dissolve_attr_last_wins (attrs : List Attribute)
    (h : ∀ a ∈ qualifyingDissolve attrs, ∃ r, parse_args_rename a = MRes.ok r) :
    dissolve_rename_from attrs =
      MRes.ok (((qualifyingDissolve attrs).filterMap parsedRenameName).getLast?) := by
  rw [dissolve_rename_from, dissolve_rename_loop_ok attrs none h, foldl_overwrite]
  cases ((qualifyingDissolve attrs).filterMap parsedRenameName).getLast? with
  | none => rfl
  | some x => rfl

/-- Claim C4 witness: two well-formed dissolve rename attributes resolve to
the later name, via the general theorem at a concrete list. -/
theorem dissolve_attr_last_wins_witness :
    dissolve_rename_from [attrRenameA, attrRenameB] =
      MRes.ok (some (Ident.mk "b")) := by
  have h := dissolve_attr_last_wins [attrRenameA, attrRenameB] ?hq
  case hq =>
    intro a ha
    have hab : a = attrRenameA ∨ a = attrRenameB := by
      simpa [qualifyingDissolve, attrRenameA, attrRenameB] using ha
    rcases hab with h1 | h1 <;> subst h1
    · exact ⟨Rename.mk (Ident.mk "a"), by decide⟩
    · exact ⟨Rename.mk (Ident.mk "b"), by decide⟩
  rw [h]
  decide

/-- Claim C8: the dissolve attribute scan sees only outer-style attributes:
any attribute list resolves identically to its outer-style sublist, and a
list of only inner-style attributes yields no directive and no error. -/
theorem dissolve_attr_outer_only (attrs : List Attribute) :
    dissolve_rename_from attrs =
      dissolve_rename_from (attrs.filter (fun a => a.style == AttrStyle.Outer)) ∧
    dissolve_rename_from (attrs.filter (fun a => a.style == AttrStyle.Inner)) =
      MRes.ok none := by
  constructor
  · exact dissolve_rename_loop_filter_outer attrs none
  · refine dissolve_rename_loop_all_inner _ none ?_
    intro a ha
    have hb := (List.mem_filter.mp ha).2
    cases hsa : a.style with
    | Inner => rfl
    | Outer => rw [hsa] at hb; simp at hb

/-- Claim C10: a malformed qualifying dissolve attribute aborts the scan
with its own error even when a later well-formed dissolve attribute
follows, provided every earlier qualifying attribute parses successfully. -/
theorem dissolve_attr_first_error_wins (pre post : List Attribute)
    (bad : Attribute) (e : Err)
    (hstyle : bad.style = AttrStyle.Outer) (hpath : bad.path = "dissolve")
    (hbad : parse_args_rename bad = MRes.error e)
    (hpre : ∀ a ∈ qualifyingDissolve pre, ∃ r, parse_args_rename a = MRes.ok r) :
    dissolve_rename_from (pre ++ bad :: post) = MRes.error e :=
  dissolve_rename_loop_error pre none hpre bad post e hstyle hpath hbad

/-- Claim C10 witness: a malformed dissolve attribute followed by a
well-formed rename still fails with InvalidAttribute, via the general
theorem at a concrete list. -/
theorem dissolve_attr_first_error_wins_witness :
    dissolve_rename_from [attrBadSkip, attrRenameB] =
      MRes.error (Err.problem Problem.InvalidAttribute) := by
  have h := dissolve_attr_first_error_wins [] [attrRenameB] attrBadSkip
    (Err.problem Problem.InvalidAttribute) rfl rfl (by decide)
    (by intro a ha; simp [qualifyingDissolve] at ha)
  simpa using h

theorem filterMap_ident_of_isSome :
    ∀ fs : List SynField, (∀ f ∈ fs, (SynField.ident f).isSome) →
    fs.filterMap SynField.ident = fs.map (fun f => f.ident.getD (Ident.mk ""))
  | [], _ => rfl
  | f :: fs, h => by
    have hf := h f (by simp)
    match hid : f.ident with
    | Option.none => rw [hid] at hf; simp at hf
    | Option.some n =>
      simp [List.filterMap_cons, hid,
        filterMap_ident_of_isSome fs (fun g hg => h g (by simp [hg]))]

/-- Claim C3: the dissolve emitter produces exactly one method, named by the
rename directive when one is present and dissolve otherwise, and the
method's return tuple and body are determined by the fields alone, so a
renamed method returns the same tuple the unrenamed one would. -/
theorem dissolve_emit_rename_only_changes_name (n : Ident) (g : String)
    (fl : List Field) (r : Option Ident) :
    (NamedStruct.mk n g fl r).emit =
      ImplBlock.mk g n
        [DissolveMethod.mk true true (r.getD (Ident.mk "dissolve"))
          (TypeTuple.mk (fl.map Field.ty)) (fl.map Field.name)] := by
  cases r <;> simp [NamedStruct.emit, foldl_push_eq_map]

/-- Claim C1: for a well-formed named struct whose attributes resolve, the
dissolve expansion emits exactly one public method consuming self, whose
return tuple lists the declared field types in declaration order and whose
body lists the field values in declaration order, one per field. -/
theorem dissolve_emits_single_ordered_tuple (ast : DeriveInput)
    (fsyn : List SynField) (dr : Option Ident)
    (hdata : ast.data = ItemData.structData (StructData.named fsyn))
    (hnames : ∀ f ∈ fsyn, (SynField.ident f).isSome)
    (hattrs : dissolve_rename_from ast.attrs = MRes.ok dr) :
    ∃ m : DissolveMethod,
      dissolve ast = Expanded.fragment (ImplBlock.mk ast.generics ast.ident [m]) ∧
      m.is_pub = true ∧ m.takes_self = true ∧
      m.name = dr.getD (Ident.mk "dissolve") ∧
      m.ret = TypeTuple.mk (fsyn.map SynField.ty) ∧
      m.body = fsyn.filterMap SynField.ident ∧
      (m.ret).elems.length = fsyn.length ∧
      m.body.length = fsyn.length := by
  refine ⟨DissolveMethod.mk true true (dr.getD (Ident.mk "dissolve"))
      (TypeTuple.mk (fsyn.map SynField.ty))
      (fsyn.filterMap SynField.ident), ?_, rfl, rfl, rfl, rfl, rfl, ?_, ?_⟩
  · have hff := from_fields_named_of_isSome fsyn hnames
    have htry : NamedStruct.try_from ast =
        MRes.ok (NamedStruct.mk ast.ident ast.generics
          (fsyn.map (fun f => Field.mk f.ty (f.ident.getD (Ident.mk "")))) dr) := by
      simp [NamedStruct.try_from, named_struct, hdata, named_fields, hff, hattrs]
    have h1 : (fsyn.map (fun f => Field.mk f.ty (f.ident.getD (Ident.mk "")))).map
        Field.ty = fsyn.map SynField.ty := by
      rw [List.map_map]; rfl
    have h2 : (fsyn.map (fun f => Field.mk f.ty (f.ident.getD (Ident.mk "")))).map
        Field.name = fsyn.filterMap SynField.ident := by
      rw [List.map_map, filterMap_ident_of_isSome fsyn hnames]; rfl
    have h3 : (match dr with
        | Option.some n => n
        | Option.none => Ident.mk "dissolve") = dr.getD (Ident.mk "dissolve") := by
      cases dr <;> rfl
    simp [dissolve, htry, NamedStruct.emit, foldl_push_eq_map, h1, h2, h3]
  · simp
  · rw [filterMap_ident_of_isSome fsyn hnames, List.length_map]

/-- Claim C1 witness: the Stuff struct of the crate documentation expands to
one dissolve method returning its three fields, via the general theorem at
a concrete input. -/
theorem dissolve_emits_single_ordered_tuple_witness :
    dissolve stuffInput = Expanded.fragment (ImplBlock.mk "" (Ident.mk "Stuff")
      [DissolveMethod.mk true true (Ident.mk "dissolve")
        (TypeTuple.mk [RustType.mk "String", RustType.mk "f64", RustType.mk "usize"])
        [Ident.mk "name", Ident.mk "price", Ident.mk "count"]]) := by
  obtain ⟨m, hm, hpub, hself, hname, hret, hbody, _, _⟩ :=
    dissolve_emits_single_ordered_tuple stuffInput stuffFields none rfl
      (by intro f hf; fin_cases hf <;> rfl) rfl
  rw [hm]
  obtain ⟨mp, ms, mn, mr, mb⟩ := m
  simp only at hpub hself hname hret hbody
  subst hpub hself hname hret hbody
  rfl

/-- Claim C6: the dissolve entry point never produces partial output: a
failing expansion yields exactly one diagnostic and zero generated methods,
a panicking expansion yields zero methods, and a successful expansion
yields the emitted fragment with zero diagnostics. -/
theorem dissolve_no_partial_output (ast : DeriveInput) :
    (∀ e, NamedStruct.try_from ast = MRes.error e →
      dissolve ast = Expanded.compileError e ∧
      (dissolve ast).methodCount = 0 ∧ (dissolve ast).diagCount = 1) ∧
    (NamedStruct.try_from ast = MRes.panicked →
      (dissolve ast).methodCount = 0 ∧ (dissolve ast).diagCount = 0) ∧
    (∀ ns, NamedStruct.try_from ast = MRes.ok ns →
      dissolve ast = Expanded.fragment ns.emit ∧ (dissolve ast).diagCount = 0) := by
  refine ⟨fun e he => ?_, fun hp => ?_, fun ns hns => ?_⟩ <;>
    cases htf : NamedStruct.try_from ast <;>
    simp_all [dissolve, Expanded.methodCount, Expanded.diagCount]

/-- Claim C6 witness: deriving Dissolve on an enum fails with NotAStruct as
the single diagnostic and no generated method, via the general theorem. -/
theorem dissolve_no_partial_output_witness :
    dissolve enumInput = Expanded.compileError (Err.problem Problem.NotAStruct) ∧
    (dissolve enumInput).methodCount = 0 ∧ (dissolve enumInput).diagCount = 1 :=
  (dissolve_no_partial_output enumInput).1 (Err.problem Problem.NotAStruct) rfl

theorem getter_collect_no_attrs :
    ∀ fs : List (Ident × RustType),
    GetterField.collect (fs.map (fun p => SynField.mk (some p.1) p.2 [])) =
      MRes.ok (fs.map (fun p => GetterField.mk (Field.mk p.2 p.1) none))
  | [] => rfl
  | p :: fs => by
    simp [GetterField.collect, Field.from_field, getter_directive_from,
      getter_directive_loop, getter_collect_no_attrs fs]

theorem getters_emit_fold :
    ∀ (gfs : List GetterField) (acc : List GetterMethod),
    (∀ gf ∈ gfs, gf.action = none) →
    gfs.foldl (fun ms gf =>
      match gf.action with
      | Option.some GetterAction.skip => ms
      | Option.some (GetterAction.rename n) =>
        ms ++ [GetterMethod.mk true n gf.field.ty gf.field.name]
      | Option.none =>
        ms ++ [GetterMethod.mk true gf.field.name gf.field.ty gf.field.name]) acc
    = acc ++ gfs.map (fun gf =>
        GetterMethod.mk true gf.field.name gf.field.ty gf.field.name)
  | [], acc, _ => by simp
  | gf :: gfs, acc, h => by
    have hgf := h gf (by simp)
    rw [List.foldl_cons]
    simp only [hgf]
    rw [getters_emit_fold gfs _ (fun g hg => h g (by simp [hg]))]
    simp

/-- Claim C2: for a named struct with N fields and no attributes, the
Getters expansion produces exactly N public accessor methods, one per
field, each named after its field and returning an immutable reference to
that field, names matching field identifiers one to one. -/
theorem getters_one_accessor_per_field (ast : DeriveInput)
    (fs : List (Ident × RustType))
    (hdata : ast.data = ItemData.structData
      (StructData.named (fs.map (fun p => SynField.mk (some p.1) p.2 [])))) :
    getters ast = GettersExpanded.fragment
      (GettersImplBlock.mk ast.generics ast.ident
        (fs.map (fun p => GetterMethod.mk true p.1 p.2 p.1))) ∧
    (fs.map (fun p => GetterMethod.mk true p.1 p.2 p.1)).length = fs.length ∧
    (fs.map (fun p => GetterMethod.mk true p.1 p.2 p.1)).map GetterMethod.name =
      fs.map Prod.fst := by
  refine ⟨?_, by simp, by rw [List.map_map]; rfl⟩
  have htry : GettersStruct.try_from ast =
      MRes.ok (GettersStruct.mk ast.ident ast.generics
        (fs.map (fun p => GetterField.mk (Field.mk p.2 p.1) none))) := by
    simp [GettersStruct.try_from, named_struct, hdata, named_fields,
      getter_collect_no_attrs fs]
  have hemit : (GettersStruct.mk ast.ident ast.generics
      (fs.map (fun p => GetterField.mk (Field.mk p.2 p.1) none))).emit =
      GettersImplBlock.mk ast.generics ast.ident
        (fs.map (fun p => GetterMethod.mk true p.1 p.2 p.1)) := by
    rw [GettersStruct.emit]
    rw [getters_emit_fold _ [] (by
      intro gf hgf
      simp at hgf
      obtain ⟨p, w, hp⟩ := hgf
      rw [← hp.2])]
    rw [List.map_map]
    rfl
  simp [getters, htry, hemit]

/-- Claim C2 witness: the Number struct of the crate documentation expands
to exactly one public accessor named num, via the general theorem at a
concrete input. -/
theorem getters_one_accessor_per_field_witness :
    getters numberInput = GettersExpanded.fragment
      (GettersImplBlock.mk "" (Ident.mk "Number")
        [GetterMethod.mk true (Ident.mk "num") (RustType.mk "u64") (Ident.mk "num")]) := by
  have h := (getters_one_accessor_per_field numberInput
      [(Ident.mk "num", RustType.mk "u64")] rfl).1
  simpa using h

end DeriveGetters
